import Mathlib

/-!
Verification of `split_modules.py`, a tool that reads the file
`advanced-filter-search.js`, extracts three named object-literal sections by
regular-expression search, wraps each in an IIFE template, injects export
assignments by textual substitution, writes the wrapped modules to disk and
prints a size report.

The embedding works on `Str := List Char`.  Python regular expressions are
modelled only for the two pattern shapes the program uses: a pattern with no
metacharacters (after resolving the escaped brace), and the anchored pattern
to a line-start `\s*` run followed by a closing brace and semicolon.  Python
`re.search` is called without `re.MULTILINE`, so the anchor matches only at
position 0 of the whole text; the model reproduces exactly that.  The
whitespace class is modelled by its ASCII members (all inputs the program is
run on are ASCII).  The filesystem is an association list from path to file
content; byte sizes are UTF-8 lengths of the stored content.
-/

set_option maxRecDepth 8000

namespace SplitModules

/-- Character strings, as lists of characters. -/
abbrev Str := List Char

/-- Coerce a Lean string literal to the `Str` representation. -/
def strOf (s : String) : Str := s.data

/-- ASCII members of the Python whitespace class `\s` (also the set used by
`str.rstrip`). -/
def pyIsSpace (c : Char) : Bool :=
  c == ' ' || c == '\t' || c == '\n' || c == '\x0b' || c == '\x0c' || c == '\r'

/-- Python `str.rstrip()`: drop trailing whitespace. -/
def pyRstrip (s : Str) : Str :=
  (s.reverse.dropWhile pyIsSpace).reverse

/-- Number of bytes of the UTF-8 encoding of one character. -/
def charUtf8Len (c : Char) : Nat :=
  if c.toNat < 0x80 then 1
  else if c.toNat < 0x800 then 2
  else if c.toNat < 0x10000 then 3
  else 4

/-- Number of bytes of the UTF-8 encoding of a string; this is what
`os.path.getsize` returns for a file written with `encoding='utf-8'`. -/
def utf8Len : Str → Nat
  | [] => 0
  | c :: rest => charUtf8Len c + utf8Len rest

/-- A regex match: start position and end position (Python
`match.start()` / `match.end()`). -/
structure Match where
  start : Nat
  stop : Nat
deriving DecidableEq

/-- The two regular-expression shapes appearing in `split_modules.py`:
`literal pat` is a pattern with no metacharacters (the section start
patterns, after resolving the escaped brace), and `bolWsCloseBrace` is the
section end pattern, a start anchor, a greedy whitespace run, then the two
characters of a closing brace and a semicolon.  The program compiles
patterns without `re.MULTILINE`, so the anchor means position 0 of the whole
text. -/
inductive Regex where
  | literal (pat : Str)
  | bolWsCloseBrace
deriving DecidableEq

/-- Whether a regex matches at position `i` of `content`; returns the match
end.  For `bolWsCloseBrace` the greedy `\s*` cannot backtrack into a
successful shorter match, because the brace character that must follow is
not whitespace; hence the unique candidate is the maximal whitespace run. -/
def Regex.matchAt : Regex → Str → Nat → Option Nat
  | .literal pat, content, i =>
      if pat.isPrefixOf (content.drop i) then some (i + pat.length) else none
  | .bolWsCloseBrace, content, i =>
      if i = 0 then
        let w := (content.takeWhile pyIsSpace).length
        match content.drop w with
        | '}' :: ';' :: _ => some (w + 2)
        | _ => none
      else none

/-- Scan positions `i, i+1, ...` (at most `fuel` of them, and never past the
end of the text) for the leftmost regex match. -/
def searchFromFuel (r : Regex) (c : Str) : Nat → Nat → Option Match
  | 0, _ => none
  | fuel + 1, i =>
      if i ≤ c.length then
        match r.matchAt c i with
        | some e => some ⟨i, e⟩
        | none => searchFromFuel r c fuel (i + 1)
      else none

/-- Python `re.search`: the leftmost match of the pattern in the text, or
`None`. -/
def re_search (r : Regex) (content : Str) : Option Match :=
  searchFromFuel r content (content.length + 1) 0

/-- `extract_section` from `split_modules.py`: search the start pattern and
(independently, again over the whole content) the end pattern; if either
search fails return `None`, otherwise return the slice
`content[start_match.start():end_match.end()]`. -/
def extract_section (content : Str) (start_pattern end_pattern : Regex) : Option Str :=
  match re_search start_pattern content, re_search end_pattern content with
  | some start_match, some end_match =>
      some ((content.drop start_match.start).take (end_match.stop - start_match.start))
  | _, _ => none

/-- One line of the generated dependency stubs:
`  const DEP = global.AFS?.DEP || \x7b\x7d;` with a newline. -/
def depLine (dep : Str) : Str :=
  strOf "  const " ++ dep ++ strOf " = global.AFS?." ++ dep ++ strOf " || \x7b\x7d;\n"

/-- The `deps_code` prelude of `create_module_wrapper`; empty when the
dependency list is `None` or empty (Python truthiness of the list). -/
def deps_code : Option (List Str) → Str
  | none => []
  | some [] => []
  | some deps => strOf "\n  // Dependencies\n" ++ (deps.map depLine).flatten

/-- The fixed tail of the wrapper template: everything after the extracted
body, starting with the two-space line that follows it. -/
def postTemplate : Str :=
  strOf "  \n  // Expose to global namespace\n  if (typeof window !== 'undefined') \x7b\n    window.AFS = window.AFS || \x7b\x7d;\n    // Module exports will be added here\n  \x7d else if (typeof global !== 'undefined') \x7b\n    global.AFS = global.AFS || \x7b\x7d;\n    // Module exports will be added here\n  \x7d\n  \n\x7d)(typeof window !== 'undefined' ? window : this);\n"

/-- `create_module_wrapper` from `split_modules.py`: header comment naming
the module, IIFE opening, optional dependency stubs, the body verbatim, and
the fixed tail with the two placeholder lines. -/
def create_module_wrapper (name content : Str) (dependencies : Option (List Str)) : Str :=
  strOf "/**\n * Advanced Filter Search - " ++ name
    ++ strOf "\n * Auto-generated module\n */\n(function(global) \x7b\n  'use strict';\n"
    ++ deps_code dependencies
    ++ strOf "\n" ++ content ++ strOf "\n" ++ postTemplate

/-- The exact placeholder line located by `str.replace` in `main`. -/
def placeholder : Str := strOf "    // Module exports will be added here"

/-- Helper for `strReplace`: replace every non-overlapping occurrence of the
non-empty pattern `o :: os`, scanning left to right.  The second argument is
a skip counter: after a replacement the matched characters still ahead in
the list are consumed without being emitted.  Structural recursion on the
scanned list keeps the function kernel-reducible. -/
def replaceAux (o : Char) (os new : Str) : Str → Nat → Str
  | [], _ => []
  | _c :: rest, skip + 1 => replaceAux o os new rest skip
  | c :: rest, 0 =>
      if (o :: os).isPrefixOf (c :: rest) then
        new ++ replaceAux o os new rest os.length
      else
        c :: replaceAux o os new rest 0

/-- Python `str.replace(old, new)`: replace every non-overlapping occurrence
of `old` by `new`, scanning left to right; with an empty `old`, `new` is
inserted before every character and at the end. -/
def strReplace (s old new : Str) : Str :=
  match old with
  | [] => new ++ s.foldr (fun c acc => c :: (new ++ acc)) []
  | o :: os => replaceAux o os new s 0

/-- Number of positions of `s` at which `p` occurs (occurrences may
overlap); for non-empty `p` this is zero exactly when `p` is not a
contiguous substring of `s`. -/
def countOccur (p : Str) : Str → Nat
  | [] => 0
  | c :: rest => (if p.isPrefixOf (c :: rest) then 1 else 0) + countOccur p rest

/-- `p` occurs as a contiguous substring of `s`. -/
def substrOf (p s : Str) : Prop := ∃ a b, s = a ++ p ++ b

/-- One section descriptor of the hardcoded `sections` list.  The Python
dict key `end` is renamed to `endp` because `end` is reserved in Lean. -/
structure SectionCfg where
  name : Str
  start : Regex
  endp : Regex
  file : Str
  exports : List Str
  dependencies : Option (List Str)
deriving DecidableEq

/-- The `Utils` section descriptor. -/
def utilsSection : SectionCfg where
  name := strOf "Utils"
  start := .literal (strOf "const Utils = \x7b")
  endp := .bolWsCloseBrace
  file := strOf "afs-utils.js"
  exports := [strOf "Utils"]
  dependencies := none

/-- The `StateManager` section descriptor. -/
def stateManagerSection : SectionCfg where
  name := strOf "StateManager"
  start := .literal (strOf "const StateManager = \x7b")
  endp := .bolWsCloseBrace
  file := strOf "afs-state.js"
  exports := [strOf "StateManager"]
  dependencies := some [strOf "CONSTANTS", strOf "Logger"]

/-- The `URLManager` section descriptor. -/
def urlManagerSection : SectionCfg where
  name := strOf "URLManager"
  start := .literal (strOf "const URLManager = \x7b")
  endp := .bolWsCloseBrace
  file := strOf "afs-url.js"
  exports := [strOf "URLManager"]
  dependencies := some [strOf "CONSTANTS", strOf "Utils", strOf "StateManager", strOf "Logger"]

/-- The hardcoded section list of `main`, in source order. -/
def sections : List SectionCfg := [utilsSection, stateManagerSection, urlManagerSection]

/-- A filesystem: association list from path to file content. -/
abbrev FS := List (Str × Str)

/-- Look a path up in the filesystem (`os.path.exists` is success of this,
reading a file returns the content). -/
def fsGet : FS → Str → Option Str
  | [], _ => none
  | (p, c) :: rest, path => if p == path then some c else fsGet rest path

/-- `write_file`: store content at a path, overwriting an existing file. -/
def fsWrite : FS → Str → Str → FS
  | [], path, content => [(path, content)]
  | (p, c) :: rest, path, content =>
      if p == path then (path, content) :: rest else (p, c) :: fsWrite rest path content

/-- The byte size `os.path.getsize` reports for a file. -/
def get_file_size_bytes (fs : FS) (path : Str) : Nat :=
  utf8Len ((fsGet fs path).getD [])

/-- `get_file_size_kb`: the byte size of the file divided by 1024.  The
Python value is a float, but a byte count below 2^53 divided by the power of
two 1024 is exactly representable, so the rational value is exact.  The
executable pipeline below carries the byte count and compares and formats
it directly; this rational view is related to it by `c7_status_line`. -/
def get_file_size_kb (fs : FS) (path : Str) : ℚ :=
  (get_file_size_bytes fs path : ℚ) / 1024

/-- Round the ratio of two naturals to the nearest integer, ties to even —
the rounding `'.2f'` formatting applies (after scaling by 100) to an
exactly-represented float. -/
def roundHalfEvenDiv (num den : Nat) : Nat :=
  let q := num / den
  let r := num % den
  if 2 * r < den then q
  else if den < 2 * r then q + 1
  else if q % 2 = 0 then q else q + 1

/-- Python `f"{size_kb:.2f}"` for `size_kb` the exact float `bytes/1024`:
the hundredths value rounded half-to-even, rendered as integer part, a dot,
and two decimal digits. -/
def formatSizeKb (bytes : Nat) : Str :=
  let h := roundHalfEvenDiv (bytes * 100) 1024
  strOf (Nat.repr (h / 100)) ++ strOf "."
    ++ (if h % 100 < 10 then strOf "0" ++ strOf (Nat.repr (h % 100))
        else strOf (Nat.repr (h % 100)))

/-- The `exports_code` accumulation of `main`: one
`    window.AFS.NAME = NAME;` line per export name. -/
def exports_code (exports : List Str) : Str :=
  exports.foldl
    (fun acc e => acc ++ strOf "    window.AFS." ++ e ++ strOf " = " ++ e ++ strOf ";\n") []

/-- The module text `main` writes for a section once a body has been
extracted: the wrapper with every placeholder occurrence replaced by the
right-stripped export assignments. -/
def injectExports (cfg : SectionCfg) (body : Str) : Str :=
  strReplace (create_module_wrapper cfg.name body cfg.dependencies)
    placeholder (pyRstrip (exports_code cfg.exports))

/-- The console line printed for a section that was not found. -/
def notFoundLine (file : Str) : Str :=
  strOf "✗ " ++ file ++ strOf ": Section not found"

/-- The body of the section loop of `main`: extract, and on Python-truthy
success wrap, inject exports, write, re-read the size and print a status
line; otherwise print the not-found line.  Returns the new filesystem and
the printed line. -/
def processSection (content : Str) (fs : FS) (cfg : SectionCfg) : FS × Str :=
  match extract_section content cfg.start cfg.endp with
  | some extracted =>
      if extracted.isEmpty then (fs, notFoundLine cfg.file)
      else
        let module_content := injectExports cfg extracted
        let output_path := strOf "./" ++ cfg.file
        let fs' := fsWrite fs output_path module_content
        let size_bytes := get_file_size_bytes fs' output_path
        let status := if size_bytes ≤ 10 * 1024 then strOf "✓" else strOf "⚠"
        (fs', status ++ strOf " " ++ cfg.file ++ strOf ": "
          ++ formatSizeKb size_bytes ++ strOf " KB")
  | none => (fs, notFoundLine cfg.file)

/-- The fixed input path of `main`. -/
def input_file : Str := strOf "advanced-filter-search.js"

/-- `main`: on a missing input file print one error line and stop;
otherwise print the report header and process each configured section in
order.  Returns the final filesystem and the console lines. -/
def main (fs : FS) : FS × List Str :=
  match fsGet fs input_file with
  | none => (fs, [strOf "Error: advanced-filter-search.js not found"])
  | some content =>
      let header : List Str :=
        [strOf "Module splitting tool",
         List.replicate 50 '=',
         strOf "Input file: advanced-filter-search.js",
         strOf "File size: " ++ formatSizeKb (get_file_size_bytes fs input_file) ++ strOf " KB",
         strOf ""]
      sections.foldl
        (fun acc cfg =>
          let step := processSection content acc.1 cfg
          (step.1, acc.2 ++ [step.2]))
        (fs, header)

/-! ## Helper lemmas -/

theorem isPrefixOf_iff {p : Str} : ∀ {s : Str}, p.isPrefixOf s = true ↔ ∃ t, s = p ++ t := by
  induction p with
  | nil => intro s; simp [List.isPrefixOf]
  | cons q p' ih =>
      intro s
      cases s with
      | nil => simp [List.isPrefixOf]
      | cons c rest =>
          simp only [List.isPrefixOf, Bool.and_eq_true, beq_iff_eq, ih, List.cons_append,
            List.cons.injEq]
          constructor
          · rintro ⟨rfl, t, rfl⟩; exact ⟨t, rfl, rfl⟩
          · rintro ⟨t, rfl, rfl⟩; exact ⟨rfl, t, rfl⟩

theorem length_le_of_isPrefixOf {p s : Str} (h : p.isPrefixOf s = true) :
    p.length ≤ s.length := by
  obtain ⟨t, rfl⟩ := isPrefixOf_iff.1 h
  simp

theorem isPrefixOf_append_nl {p : Str} (hnl : '\n' ∉ p) :
    ∀ (xs ys : Str), p.isPrefixOf (xs ++ '\n' :: ys) = p.isPrefixOf xs := by
  induction p with
  | nil => intro xs ys; cases xs <;> rfl
  | cons q p' ih =>
      intro xs ys
      have hq : q ≠ '\n' := fun h => hnl (h ▸ List.mem_cons_self q p')
      have hp' : '\n' ∉ p' := fun h => hnl (List.mem_cons_of_mem q h)
      cases xs with
      | nil =>
          show ((q == '\n') && p'.isPrefixOf ys) = List.isPrefixOf (q :: p') []
          have hqb : (q == '\n') = false := by
            cases hb : q == '\n' with
            | false => rfl
            | true => exact absurd (beq_iff_eq.mp hb) hq
          rw [hqb]
          rfl
      | cons x xs' =>
          show ((q == x) && p'.isPrefixOf (xs' ++ '\n' :: ys))
            = ((q == x) && p'.isPrefixOf xs')
          rw [ih hp']

theorem isPrefixOf_nl_cons {p b : Str} (hp : p ≠ []) (hnl : '\n' ∉ p) :
    p.isPrefixOf ('\n' :: b) = false := by
  have h := isPrefixOf_append_nl hnl [] b
  rw [List.nil_append] at h
  rw [h]
  cases p with
  | nil => exact absurd rfl hp
  | cons q p' => rfl

theorem countOccur_append_nl {p : Str} (hp : p ≠ []) (hnl : '\n' ∉ p) :
    ∀ (a b : Str), countOccur p (a ++ '\n' :: b) = countOccur p a + countOccur p b := by
  intro a
  induction a with
  | nil =>
      intro b
      show countOccur p ('\n' :: b) = countOccur p [] + countOccur p b
      simp only [countOccur]
      rw [isPrefixOf_nl_cons hp hnl]
      simp
  | cons c a' ih =>
      intro b
      show countOccur p (c :: (a' ++ '\n' :: b))
        = countOccur p (c :: a') + countOccur p b
      simp only [countOccur]
      rw [show c :: (a' ++ '\n' :: b) = (c :: a') ++ '\n' :: b from rfl,
        isPrefixOf_append_nl hnl (c :: a') b, ih b]
      omega

theorem replaceAux_append_nl {o : Char} {os new : Str} (hnl : '\n' ∉ (o :: os)) :
    ∀ (a : Str) (skip : Nat), skip ≤ a.length → ∀ (b : Str),
      replaceAux o os new (a ++ '\n' :: b) skip
        = replaceAux o os new a skip ++ '\n' :: replaceAux o os new b 0 := by
  intro a
  induction a with
  | nil =>
      intro skip hskip b
      have h0 : skip = 0 := Nat.le_zero.mp (by simpa using hskip)
      subst h0
      simp only [List.nil_append, replaceAux]
      rw [isPrefixOf_nl_cons (List.cons_ne_nil o os) hnl]
      simp
  | cons c a' ih =>
      intro skip hskip b
      cases skip with
      | zero =>
          simp only [List.cons_append, replaceAux, List.append_eq]
          rw [show c :: (a' ++ '\n' :: b) = (c :: a') ++ '\n' :: b from rfl,
            isPrefixOf_append_nl hnl (c :: a') b]
          by_cases hpre : (o :: os).isPrefixOf (c :: a') = true
          · have hoslen : os.length ≤ a'.length := by
              have := length_le_of_isPrefixOf hpre
              simp only [List.length_cons] at this; omega
            rw [hpre]
            simp only [if_true]
            rw [ih os.length hoslen b]
            simp
          · have hpre' : (o :: os).isPrefixOf (c :: a') = false :=
              Bool.of_not_eq_true hpre
            rw [hpre']
            simp only [Bool.false_eq_true, if_false]
            rw [ih 0 (Nat.zero_le _) b]
            simp
      | succ k =>
          simp only [List.cons_append, replaceAux, List.append_eq]
          exact ih k (by simp only [List.length_cons] at hskip; omega) b

theorem strReplace_append_nl {old : Str} (hold : old ≠ []) (hnl : '\n' ∉ old)
    (a b new : Str) :
    strReplace (a ++ '\n' :: b) old new
      = strReplace a old new ++ '\n' :: strReplace b old new := by
  cases old with
  | nil => exact absurd rfl hold
  | cons o os => exact replaceAux_append_nl hnl a 0 (Nat.zero_le _) b

theorem replaceAux_of_countOccur_zero {o : Char} {os new : Str} :
    ∀ {s : Str}, countOccur (o :: os) s = 0 → replaceAux o os new s 0 = s := by
  intro s
  induction s with
  | nil => intro _; simp [replaceAux]
  | cons c rest ih =>
      intro h
      simp only [countOccur] at h
      by_cases hpre : (o :: os).isPrefixOf (c :: rest) = true
      · rw [hpre] at h; simp at h
      · have hpre' : (o :: os).isPrefixOf (c :: rest) = false :=
          Bool.of_not_eq_true hpre
        rw [hpre'] at h
        simp only [Bool.false_eq_true, if_false, Nat.zero_add] at h
        simp only [replaceAux]
        rw [hpre']
        simp [ih h]

theorem strReplace_of_countOccur_zero {old : Str} (hold : old ≠ []) {s new : Str}
    (h : countOccur old s = 0) : strReplace s old new = s := by
  cases old with
  | nil => exact absurd rfl hold
  | cons o os => exact replaceAux_of_countOccur_zero h

theorem substrOf_of_countOccur_pos {p : Str} :
    ∀ {s : Str}, 0 < countOccur p s → substrOf p s := by
  intro s
  induction s with
  | nil => intro h; simp [countOccur] at h
  | cons c rest ih =>
      intro h
      simp only [countOccur] at h
      by_cases hpre : p.isPrefixOf (c :: rest) = true
      · obtain ⟨t, ht⟩ := isPrefixOf_iff.1 hpre
        exact ⟨[], t, by simpa using ht⟩
      · have hpre' : p.isPrefixOf (c :: rest) = false := Bool.of_not_eq_true hpre
        rw [hpre'] at h
        simp only [Bool.false_eq_true, if_false, Nat.zero_add] at h
        obtain ⟨a, b, hab⟩ := ih h
        exact ⟨c :: a, b, by simp [hab]⟩

theorem countOccur_zero_of_not_substrOf {p s : Str} (h : ¬ substrOf p s) :
    countOccur p s = 0 := by
  by_contra hne
  exact h (substrOf_of_countOccur_pos (Nat.pos_of_ne_zero hne))

theorem substrOf_append_right {p a : Str} (b : Str) (h : substrOf p a) :
    substrOf p (a ++ b) := by
  obtain ⟨x, y, rfl⟩ := h
  exact ⟨x, y ++ b, by simp⟩

theorem fsGet_fsWrite (fs : FS) (path m : Str) :
    fsGet (fsWrite fs path m) path = some m := by
  induction fs with
  | nil => simp [fsGet, fsWrite]
  | cons pc rest ih =>
      obtain ⟨p, c⟩ := pc
      rw [fsWrite]
      by_cases hp : (p == path) = true
      · rw [if_pos hp, fsGet]; simp
      · have hp' : (p == path) = false := by simpa using hp
        rw [if_neg (by simp [hp']), fsGet, hp']
        simpa using ih

/-- Specification of the fuel-driven scan of `re_search`: a returned match
starts at or after the scan origin, the regex matches there, and it matches
at no earlier scanned position. -/
theorem searchFromFuel_spec (r : Regex) (c : Str) :
    ∀ (fuel i : Nat) (m : Match), searchFromFuel r c fuel i = some m →
      i ≤ m.start ∧ r.matchAt c m.start = some m.stop ∧
        ∀ j, i ≤ j → j < m.start → r.matchAt c j = none := by
  intro fuel
  induction fuel with
  | zero => intro i m h; simp [searchFromFuel] at h
  | succ fuel ih =>
      intro i m h
      rw [searchFromFuel] at h
      by_cases hi : i ≤ c.length
      · rw [if_pos hi] at h
        cases hm : r.matchAt c i with
        | some e =>
            rw [hm] at h
            cases h
            exact ⟨Nat.le_refl _, hm, fun j h1 h2 => absurd (Nat.lt_of_le_of_lt h1 h2)
              (Nat.lt_irrefl _)⟩
        | none =>
            rw [hm] at h
            obtain ⟨h1, h2, h3⟩ := ih (i + 1) m h
            refine ⟨Nat.le_of_succ_le h1, h2, fun j hj1 hj2 => ?_⟩
            rcases Nat.eq_or_lt_of_le hj1 with rfl | hlt
            · exact hm
            · exact h3 j hlt hj2
      · rw [if_neg hi] at h
        exact absurd h (by simp)

/-! ## Decomposition of the wrapped module text -/

/-- Everything `create_module_wrapper` places before the newline that
precedes the body: header comment, IIFE opening, strict-mode line and the
dependency stubs. -/
def wrapPre (name : Str) (dependencies : Option (List Str)) : Str :=
  strOf "/**\n * Advanced Filter Search - " ++ name
    ++ strOf "\n * Auto-generated module\n */\n(function(global) \x7b\n  'use strict';\n"
    ++ deps_code dependencies

theorem wrapper_decomp (name content : Str) (dependencies : Option (List Str)) :
    create_module_wrapper name content dependencies
      = wrapPre name dependencies ++ '\n' :: (content ++ '\n' :: postTemplate) := by
  simp only [create_module_wrapper, wrapPre, List.append_assoc]
  rfl

/-- The replacement text `main` substitutes for the placeholder: the export
assignments, right-stripped. -/
def exRepl (cfg : SectionCfg) : Str := pyRstrip (exports_code cfg.exports)

theorem injectExports_decomp (cfg : SectionCfg) (body : Str)
    (hb : countOccur placeholder body = 0) :
    injectExports cfg body
      = strReplace (wrapPre cfg.name cfg.dependencies) placeholder (exRepl cfg)
        ++ '\n' :: (body ++ '\n' :: strReplace postTemplate placeholder (exRepl cfg)) := by
  have hpl : placeholder ≠ [] := by decide
  have hnl : '\n' ∉ placeholder := by decide
  rw [injectExports, wrapper_decomp, strReplace_append_nl hpl hnl,
    strReplace_append_nl hpl hnl, strReplace_of_countOccur_zero hpl hb]
  rfl

/-- Occurrence counting through `injectExports`: the count splits over the
fixed head, the untouched body, and the fixed tail. -/
theorem inject_counts (cfg : SectionCfg) (p body : Str) (hp : p ≠ [])
    (hnl : '\n' ∉ p) (h1 : countOccur placeholder body = 0)
    (hbp : countOccur p body = 0) (n : Nat)
    (hfix : countOccur p (strReplace (wrapPre cfg.name cfg.dependencies)
          placeholder (exRepl cfg))
        + countOccur p (strReplace postTemplate placeholder (exRepl cfg)) = n) :
    countOccur p (injectExports cfg body) = n := by
  rw [injectExports_decomp cfg body h1, countOccur_append_nl hp hnl,
    countOccur_append_nl hp hnl, hbp]
  omega

/-- A pattern occurring in the fixed head occurs in the whole injected
module text. -/
theorem inject_contains (cfg : SectionCfg) (p body : Str)
    (h1 : countOccur placeholder body = 0)
    (hx : 0 < countOccur p (strReplace (wrapPre cfg.name cfg.dependencies)
        placeholder (exRepl cfg))) :
    substrOf p (injectExports cfg body) := by
  rw [injectExports_decomp cfg body h1]
  exact substrOf_append_right _ (substrOf_of_countOccur_pos hx)

/-- Occurrence counting through `create_module_wrapper` (before export
injection). -/
theorem wrapper_counts (name body : Str) (deps : Option (List Str)) (p : Str)
    (hp : p ≠ []) (hnl : '\n' ∉ p) (hbp : countOccur p body = 0) (n : Nat)
    (hfix : countOccur p (wrapPre name deps) + countOccur p postTemplate = n) :
    countOccur p (create_module_wrapper name body deps) = n := by
  rw [wrapper_decomp, countOccur_append_nl hp hnl, countOccur_append_nl hp hnl, hbp]
  omega

theorem countOccur_pos_of_substrOf {p : Str} (hp : p ≠ []) :
    ∀ {s : Str}, substrOf p s → 0 < countOccur p s := by
  intro s h
  obtain ⟨a, b, rfl⟩ := h
  induction a with
  | nil =>
      cases p with
      | nil => exact absurd rfl hp
      | cons o os =>
          show 0 < countOccur (o :: os) (o :: (os ++ b))
          simp only [countOccur]
          have : (o :: os).isPrefixOf (o :: (os ++ b)) = true :=
            isPrefixOf_iff.2 ⟨b, rfl⟩
          rw [this]
          simp
  | cons c a' ih =>
      show 0 < countOccur p (c :: (a' ++ p ++ b))
      simp only [countOccur]
      have := ih
      omega

/-- The half-even rounding is within one half of the exact ratio: printing
`roundHalfEvenDiv num den` as the nearest integer of `num/den` is correct
rounding. -/
theorem roundHalfEvenDiv_close (num den : Nat) (hden : 0 < den) :
    |(roundHalfEvenDiv num den : ℚ) - (num : ℚ) / den| ≤ 1 / 2 := by
  have hdq : (0 : ℚ) < (den : ℚ) := by exact_mod_cast hden
  have hmod := Nat.div_add_mod num den
  have hq : (num : ℚ) = (den : ℚ) * (num / den : Nat) + ((num % den : Nat) : ℚ) := by
    exact_mod_cast hmod.symm
  have hr0 : (0 : ℚ) ≤ ((num % den : Nat) : ℚ) := by positivity
  have main : ∀ X : ℚ, (X - 1 / 2) * den ≤ num → (num : ℚ) ≤ (X + 1 / 2) * den →
      |X - (num : ℚ) / den| ≤ 1 / 2 := by
    intro X hB hA
    rw [abs_le]
    have h1 := (div_le_iff₀ hdq).mpr hA
    have h2 := (le_div_iff₀ hdq).mpr hB
    constructor <;> linarith
  simp only [roundHalfEvenDiv]
  split_ifs with h1 h2 h3
  · have h1' : 2 * ((num % den : Nat) : ℚ) ≤ den := by
      exact_mod_cast Nat.le_of_lt h1
    apply main <;> nlinarith [hq, hr0, hdq]
  · have h2' : (den : ℚ) ≤ 2 * ((num % den : Nat) : ℚ) := by
      exact_mod_cast Nat.le_of_lt h2
    have hrlt : ((num % den : Nat) : ℚ) < den := by
      exact_mod_cast Nat.mod_lt num hden
    apply main <;> push_cast <;> nlinarith [hq, hr0, hdq]
  · have htie : 2 * ((num % den : Nat) : ℚ) = den := by
      exact_mod_cast (by omega : 2 * (num % den) = den)
    apply main <;> nlinarith [hq, hr0, hdq]
  · have htie : 2 * ((num % den : Nat) : ℚ) = den := by
      exact_mod_cast (by omega : 2 * (num % den) = den)
    apply main <;> push_cast <;> nlinarith [hq, hr0, hdq]

/-! ## Claim-specific inputs -/

/-- The input of the C1 scenario: three similarly-shaped constant object
blocks named Utils, StateManager and URLManager. -/
def scenarioInput : Str :=
  strOf "const Utils = \x7b\n  a: 1\n\x7d;\nconst StateManager = \x7b\n  b: 2\n\x7d;\nconst URLManager = \x7b\n  c: 3\n\x7d;\n"

/-- A section descriptor with literal start and end patterns, used to
exercise the write path of the section loop (the three shipped descriptors
all use the anchored end pattern, which cannot match past position 0). -/
def demoSection : SectionCfg where
  name := strOf "Demo"
  start := .literal (strOf "a")
  endp := .literal (strOf "b")
  file := strOf "demo.js"
  exports := [strOf "Demo"]
  dependencies := none

/-- The export-assignment line injected for export name `e`, exactly as
`main` builds it (before the trailing newline is stripped). -/
def exportAssign (e : Str) : Str :=
  strOf "    window.AFS." ++ e ++ strOf " = " ++ e ++ strOf ";"

/-- A `global.AFS.`-qualified assignment target for export name `e`; the
generated modules never contain it. -/
def globalAssign (e : Str) : Str := strOf "global.AFS." ++ e

/-! ## Claims -/

/-- C1: the spec scenario expects the run on the three-block input to write
`afs-utils.js`, `afs-state.js` and `afs-url.js` and report three pass
lines.  The code does the opposite: because the end pattern `^\s*\};` is
compiled without `re.MULTILINE`, its anchor only matches at position 0 of
the whole file, the end search fails on this input, every extraction
returns `None`, no file is written, and the console shows three
"Section not found" lines after the header.  This theorem evaluates the
model of the code on exactly the scenario input. -/
theorem c1_scenario_run :
    main [(input_file, scenarioInput)]
      = ([(input_file, scenarioInput)],
         [strOf "Module splitting tool",
          List.replicate 50 '=',
          strOf "Input file: advanced-filter-search.js",
          strOf "File size: 0.09 KB",
          strOf "",
          strOf "✗ afs-utils.js: Section not found",
          strOf "✗ afs-state.js: Section not found",
          strOf "✗ afs-url.js: Section not found"]) := by
  decide

/-- C2: `extract_section` searches the content for the first match of the
start pattern and, independently from the beginning of the whole content,
for the first match of the end pattern; if either search fails it returns
`None`, and otherwise exactly the substring from the beginning of the first
start-match to the end of the first end-match. -/
theorem c2_extract_section_contract (content : Str) (sp ep : Regex) :
    (extract_section content sp ep = none ↔
      re_search sp content = none ∨ re_search ep content = none)
    ∧ ∀ sm em, re_search sp content = some sm → re_search ep content = some em →
        extract_section content sp ep = some ((content.take em.stop).drop sm.start)
        ∧ sp.matchAt content sm.start = some sm.stop
        ∧ (∀ j, j < sm.start → sp.matchAt content j = none)
        ∧ ep.matchAt content em.start = some em.stop
        ∧ (∀ j, j < em.start → ep.matchAt content j = none) := by
  constructor
  · cases h1 : re_search sp content with
    | none => simp [extract_section, h1]
    | some sm =>
        cases h2 : re_search ep content with
        | none => simp [extract_section, h1, h2]
        | some em => simp [extract_section, h1, h2]
  · intro sm em h1 h2
    have s1 := searchFromFuel_spec sp content (content.length + 1) 0 sm h1
    have s2 := searchFromFuel_spec ep content (content.length + 1) 0 em h2
    refine ⟨?_, s1.2.1, fun j hj => s1.2.2 j (Nat.zero_le j) hj, s2.2.1,
      fun j hj => s2.2.2 j (Nat.zero_le j) hj⟩
    simp [extract_section, h1, h2, List.drop_take]

/-- Witness for C2 at a concrete input: content `ab`, start pattern the
literal `a` (first match spans positions 0 to 1), end pattern the literal
`b` (first match spans 1 to 2). -/
theorem c2_extract_section_contract_witness :
    extract_section (strOf "ab") (.literal (strOf "a")) (.literal (strOf "b"))
      = some (((strOf "ab").take 2).drop 0) :=
  ((c2_extract_section_contract (strOf "ab") _ _).2 ⟨0, 1⟩ ⟨1, 2⟩
    (by decide) (by decide)).1

/-- C3: an output file is written for a section only if both its start and
its end pattern match somewhere in the input; if either search fails, the
loop body leaves the filesystem untouched and prints the
"Section not found" line for that section. -/
theorem c3_skip_when_pattern_missing (content : Str) (fs : FS) (cfg : SectionCfg)
    (h : re_search cfg.start content = none ∨ re_search cfg.endp content = none) :
    processSection content fs cfg = (fs, notFoundLine cfg.file) := by
  have hex : extract_section content cfg.start cfg.endp = none := by
    rcases h with h | h
    · simp [extract_section, h]
    · cases h1 : re_search cfg.start content <;> simp [extract_section, h, h1]
  simp [processSection, hex]

/-- Witness for C3: on the one-character content `x`, neither pattern of
the Utils section matches, and the loop step prints the not-found line and
writes nothing. -/
theorem c3_skip_when_pattern_missing_witness :
    processSection (strOf "x") [] utilsSection
      = ([], notFoundLine utilsSection.file) :=
  c3_skip_when_pattern_missing (strOf "x") [] utilsSection (Or.inl (by decide))

/-- Counterexample to C4 as stated: for the Utils section and the
one-character body `x`, the injected module text contains the
export-assignment line twice (once per template branch), not exactly
once. -/
theorem c4_counterexample :
    countOccur (exportAssign (strOf "Utils")) (injectExports utilsSection (strOf "x")) = 2
    ∧ countOccur (exportAssign (strOf "Utils")) (injectExports utilsSection (strOf "x")) ≠ 1 := by
  constructor
  · decide
  · decide

/-- C4 (amended): for every configured section and every extracted body
that itself contains neither the placeholder line nor an export-assignment
line, the injected module text contains the literal module name in its
header comment, exactly TWO export-assignment lines per configured export
name — one per branch of the template, because `str.replace` replaces both
placeholder occurrences — and no residual occurrence of the placeholder
text. -/
theorem c4_amended (cfg : SectionCfg) (hcfg : cfg ∈ sections) (body : Str)
    (h1 : countOccur placeholder body = 0)
    (h2 : ∀ e ∈ cfg.exports, countOccur (exportAssign e) body = 0) :
    substrOf (strOf "Advanced Filter Search - " ++ cfg.name) (injectExports cfg body)
    ∧ (∀ e ∈ cfg.exports, countOccur (exportAssign e) (injectExports cfg body) = 2)
    ∧ countOccur placeholder (injectExports cfg body) = 0 := by
  simp only [sections, List.mem_cons, List.not_mem_nil, or_false] at hcfg
  rcases hcfg with rfl | rfl | rfl
  · refine ⟨inject_contains _ _ _ h1 (by decide), fun e he => ?_, ?_⟩
    · simp only [utilsSection] at he
      rcases List.mem_singleton.mp he with rfl
      exact inject_counts _ _ _ (by decide) (by decide) h1
        (h2 (strOf "Utils") (by simp [utilsSection])) _ (by decide)
    · exact inject_counts _ _ _ (by decide) (by decide) h1 h1 _ (by decide)
  · refine ⟨inject_contains _ _ _ h1 (by decide), fun e he => ?_, ?_⟩
    · simp only [stateManagerSection] at he
      rcases List.mem_singleton.mp he with rfl
      exact inject_counts _ _ _ (by decide) (by decide) h1
        (h2 (strOf "StateManager") (by simp [stateManagerSection])) _ (by decide)
    · exact inject_counts _ _ _ (by decide) (by decide) h1 h1 _ (by decide)
  · refine ⟨inject_contains _ _ _ h1 (by decide), fun e he => ?_, ?_⟩
    · simp only [urlManagerSection] at he
      rcases List.mem_singleton.mp he with rfl
      exact inject_counts _ _ _ (by decide) (by decide) h1
        (h2 (strOf "URLManager") (by simp [urlManagerSection])) _ (by decide)
    · exact inject_counts _ _ _ (by decide) (by decide) h1 h1 _ (by decide)

/-- Witness for C4 (amended) at the Utils section with body `x`. -/
theorem c4_amended_witness :
    substrOf (strOf "Advanced Filter Search - " ++ utilsSection.name)
        (injectExports utilsSection (strOf "x"))
    ∧ (∀ e ∈ utilsSection.exports,
        countOccur (exportAssign e) (injectExports utilsSection (strOf "x")) = 2)
    ∧ countOccur placeholder (injectExports utilsSection (strOf "x")) = 0 :=
  c4_amended utilsSection (by decide) (strOf "x") (by decide) (by decide)

/-- C5: when the first end-match ends at or before the position where the
first start-match begins, the Python slice is empty, `main` treats the
empty string as falsy, no file is written and the not-found line is
printed. -/
theorem c5_end_before_start (content : Str) (fs : FS) (cfg : SectionCfg)
    (sm em : Match)
    (hsm : re_search cfg.start content = some sm)
    (hem : re_search cfg.endp content = some em)
    (hle : em.stop ≤ sm.start) :
    extract_section content cfg.start cfg.endp = some []
    ∧ processSection content fs cfg = (fs, notFoundLine cfg.file) := by
  have hex : extract_section content cfg.start cfg.endp = some [] := by
    simp [extract_section, hsm, hem, Nat.sub_eq_zero_of_le hle]
  exact ⟨hex, by simp [processSection, hex]⟩

/-- Witness for C5: the content starts with the closing `\x7d;` (end match
spans 0 to 2) and carries the Utils start text afterwards (start match
begins at 2). -/
theorem c5_end_before_start_witness :
    extract_section (strOf "\x7d;const Utils = \x7b") utilsSection.start
        utilsSection.endp = some []
    ∧ processSection (strOf "\x7d;const Utils = \x7b") [] utilsSection
      = ([], notFoundLine utilsSection.file) :=
  c5_end_before_start (strOf "\x7d;const Utils = \x7b") [] utilsSection
    ⟨2, 17⟩ ⟨0, 2⟩ (by decide) (by decide) (by decide)

/-- C6: the wrapper template carries the placeholder in both the window
branch and the global fallback branch; `str.replace` replaces every
occurrence, and both copies receive `window.AFS.<name> = <name>;`
assignments — the fallback branch therefore never assigns onto
`global.AFS`. -/
theorem c6_exports_always_window (cfg : SectionCfg) (hcfg : cfg ∈ sections)
    (body : Str) (h1 : countOccur placeholder body = 0)
    (h2 : ∀ e ∈ cfg.exports, countOccur (exportAssign e) body = 0
      ∧ countOccur (globalAssign e) body = 0) :
    countOccur placeholder (create_module_wrapper cfg.name body cfg.dependencies) = 2
    ∧ countOccur placeholder (injectExports cfg body) = 0
    ∧ ∀ e ∈ cfg.exports,
        countOccur (exportAssign e) (injectExports cfg body) = 2
        ∧ countOccur (globalAssign e) (injectExports cfg body) = 0 := by
  simp only [sections, List.mem_cons, List.not_mem_nil, or_false] at hcfg
  rcases hcfg with rfl | rfl | rfl
  · refine ⟨wrapper_counts _ _ _ _ (by decide) (by decide) h1 _ (by decide),
      inject_counts _ _ _ (by decide) (by decide) h1 h1 _ (by decide),
      fun e he => ?_⟩
    simp only [utilsSection] at he
    rcases List.mem_singleton.mp he with rfl
    have hb := h2 (strOf "Utils") (by simp [utilsSection])
    exact ⟨inject_counts _ _ _ (by decide) (by decide) h1 hb.1 _ (by decide),
      inject_counts _ _ _ (by decide) (by decide) h1 hb.2 _ (by decide)⟩
  · refine ⟨wrapper_counts _ _ _ _ (by decide) (by decide) h1 _ (by decide),
      inject_counts _ _ _ (by decide) (by decide) h1 h1 _ (by decide),
      fun e he => ?_⟩
    simp only [stateManagerSection] at he
    rcases List.mem_singleton.mp he with rfl
    have hb := h2 (strOf "StateManager") (by simp [stateManagerSection])
    exact ⟨inject_counts _ _ _ (by decide) (by decide) h1 hb.1 _ (by decide),
      inject_counts _ _ _ (by decide) (by decide) h1 hb.2 _ (by decide)⟩
  · refine ⟨wrapper_counts _ _ _ _ (by decide) (by decide) h1 _ (by decide),
      inject_counts _ _ _ (by decide) (by decide) h1 h1 _ (by decide),
      fun e he => ?_⟩
    simp only [urlManagerSection] at he
    rcases List.mem_singleton.mp he with rfl
    have hb := h2 (strOf "URLManager") (by simp [urlManagerSection])
    exact ⟨inject_counts _ _ _ (by decide) (by decide) h1 hb.1 _ (by decide),
      inject_counts _ _ _ (by decide) (by decide) h1 hb.2 _ (by decide)⟩

/-- Witness for C6 at the StateManager section with body `x`. -/
theorem c6_exports_always_window_witness :
    countOccur placeholder
        (create_module_wrapper stateManagerSection.name (strOf "x")
          stateManagerSection.dependencies) = 2
    ∧ countOccur placeholder (injectExports stateManagerSection (strOf "x")) = 0
    ∧ ∀ e ∈ stateManagerSection.exports,
        countOccur (exportAssign e) (injectExports stateManagerSection (strOf "x")) = 2
        ∧ countOccur (globalAssign e) (injectExports stateManagerSection (strOf "x")) = 0 :=
  c6_exports_always_window stateManagerSection (by decide) (strOf "x")
    (by decide) (by decide)

/-- C7: for a section whose extraction is truthy, the loop body writes the
module file unconditionally (an oversized file is still written), the
status line carries the pass indicator exactly when the written byte size
divided by 1024 is at most 10, and the printed size is the two-decimal
rendering of the actual byte size of the written file divided by 1024. -/
theorem c7_status_line (content : Str) (fs : FS) (cfg : SectionCfg)
    (extracted : Str)
    (hex : extract_section content cfg.start cfg.endp = some extracted)
    (hne : extracted ≠ []) :
    processSection content fs cfg
      = (fsWrite fs (strOf "./" ++ cfg.file) (injectExports cfg extracted),
         (if utf8Len (injectExports cfg extracted) ≤ 10 * 1024
            then strOf "✓" else strOf "⚠")
           ++ strOf " " ++ cfg.file ++ strOf ": "
           ++ formatSizeKb (utf8Len (injectExports cfg extracted))
           ++ strOf " KB")
    ∧ ((utf8Len (injectExports cfg extracted) : ℚ) / 1024 ≤ 10
        ↔ utf8Len (injectExports cfg extracted) ≤ 10 * 1024)
    ∧ |(roundHalfEvenDiv (utf8Len (injectExports cfg extracted) * 100) 1024 : ℚ) / 100
        - (utf8Len (injectExports cfg extracted) : ℚ) / 1024| ≤ 1 / 200 := by
  have hempty : extracted.isEmpty = false := by
    cases extracted with
    | nil => exact absurd rfl hne
    | cons c r => rfl
  refine ⟨?_, ?_, ?_⟩
  · simp only [processSection, hex, hempty, Bool.false_eq_true, if_false]
    rw [get_file_size_bytes, fsGet_fsWrite]
    rfl
  · rw [div_le_iff₀ (by norm_num : (0 : ℚ) < 1024)]
    have h10240 : ((10 * 1024 : Nat) : ℚ) = 10 * 1024 := by norm_num
    rw [← h10240, Nat.cast_le]
  · have hclose := roundHalfEvenDiv_close
      (utf8Len (injectExports cfg extracted) * 100) 1024 (by norm_num)
    have hdiv : ((utf8Len (injectExports cfg extracted) * 100 : Nat) : ℚ) / 1024 / 100
        = (utf8Len (injectExports cfg extracted) : ℚ) / 1024 := by
      push_cast
      ring
    have heq : (roundHalfEvenDiv (utf8Len (injectExports cfg extracted) * 100) 1024 : ℚ) / 100
          - (utf8Len (injectExports cfg extracted) : ℚ) / 1024
        = ((roundHalfEvenDiv (utf8Len (injectExports cfg extracted) * 100) 1024 : ℚ)
            - ((utf8Len (injectExports cfg extracted) * 100 : Nat) : ℚ) / 1024) / 100 := by
      rw [← hdiv]
      ring
    have hfin := (div_le_div_iff_of_pos_right (by norm_num : (0:ℚ) < 100)).mpr hclose
    rw [heq, abs_div, show |(100:ℚ)| = 100 from abs_of_pos (by norm_num)]
    linarith [hfin]

/-- Witness for C7: the demo section with literal patterns on content `ab`
extracts the truthy body `ab`, so the write path runs. -/
theorem c7_status_line_witness :
    processSection (strOf "ab") [] demoSection
      = (fsWrite [] (strOf "./" ++ demoSection.file)
          (injectExports demoSection (strOf "ab")),
         (if utf8Len (injectExports demoSection (strOf "ab")) ≤ 10 * 1024
            then strOf "✓" else strOf "⚠")
           ++ strOf " " ++ demoSection.file ++ strOf ": "
           ++ formatSizeKb (utf8Len (injectExports demoSection (strOf "ab")))
           ++ strOf " KB")
    ∧ ((utf8Len (injectExports demoSection (strOf "ab")) : ℚ) / 1024 ≤ 10
        ↔ utf8Len (injectExports demoSection (strOf "ab")) ≤ 10 * 1024)
    ∧ |(roundHalfEvenDiv (utf8Len (injectExports demoSection (strOf "ab")) * 100) 1024 : ℚ) / 100
        - (utf8Len (injectExports demoSection (strOf "ab")) : ℚ) / 1024| ≤ 1 / 200 :=
  c7_status_line (strOf "ab") [] demoSection (strOf "ab") (by decide) (by decide)

/-- C8: when the input file does not exist, `main` prints exactly one error
line, writes nothing (the filesystem is returned unchanged), performs no
extraction work and returns normally. -/
theorem c8_missing_input (fs : FS) (h : fsGet fs input_file = none) :
    main fs = (fs, [strOf "Error: advanced-filter-search.js not found"]) := by
  simp [main, h]

/-- Witness for C8 on the empty filesystem. -/
theorem c8_missing_input_witness :
    main [] = ([], [strOf "Error: advanced-filter-search.js not found"]) :=
  c8_missing_input [] (by decide)

/-- C9: when the placeholder text is absent from the module text at
injection time, the substitution is a no-op — no error, the text is
unchanged, and no export assignment is injected. -/
theorem c9_placeholder_absent_noop (m e : Str) (h : ¬ substrOf placeholder m) :
    strReplace m placeholder e = m :=
  strReplace_of_countOccur_zero (by decide) (countOccur_zero_of_not_substrOf h)

/-- Witness for C9 on the three-character text `abc`. -/
theorem c9_placeholder_absent_noop_witness :
    strReplace (strOf "abc") placeholder (strOf "E") = strOf "abc" :=
  c9_placeholder_absent_noop (strOf "abc") (strOf "E") (fun h => by
    have h1 := countOccur_pos_of_substrOf (by decide : placeholder ≠ []) h
    have h2 : countOccur placeholder (strOf "abc") = 0 := by decide
    omega)

/-- C10: for the configured patterns, `extract_section` is total by
construction and its successful result is always a contiguous (possibly
empty) substring of the input content — it never fabricates text. -/
theorem c10_extract_substring (content : Str) (cfg : SectionCfg)
    (_hcfg : cfg ∈ sections) (s : Str)
    (h : extract_section content cfg.start cfg.endp = some s) :
    substrOf s content := by
  cases h1 : re_search cfg.start content with
  | none => simp [extract_section, h1] at h
  | some sm =>
      cases h2 : re_search cfg.endp content with
      | none => simp [extract_section, h1, h2] at h
      | some em =>
          simp only [extract_section, h1, h2, Option.some.injEq] at h
          refine ⟨content.take sm.start,
            (content.drop sm.start).drop (em.stop - sm.start), ?_⟩
          rw [← h, List.append_assoc, List.take_append_drop, List.take_append_drop]

/-- Witness for C10: on a content whose first end-match precedes the start
text, the Utils section extracts the empty substring. -/
theorem c10_extract_substring_witness :
    substrOf [] (strOf "\x7d;const Utils = \x7b") :=
  c10_extract_substring (strOf "\x7d;const Utils = \x7b") utilsSection
    (by decide) [] (by decide)

end SplitModules
